import Mathlib

/-!
Verification development for the `geolocalization/queries.py` module: a
client-side layer over a remote geolocation/indicator search service.
The module is shallowly embedded: JSON values become an inductive type,
Python dictionaries become association lists with Python's
insert/overwrite semantics, the network becomes an explicit oracle
function, and exceptions become an `Except` error type.  String helpers
(`replace`, `split`, `lower`) are modelled for ASCII data, which covers
every string the module manipulates.
-/

/-- Errors a call into the module can raise (Python exception classes). -/
inductive PyError where
  /-- `raise Exception(msg)` from the distance-type validation. -/
  | validationError : String → PyError
  /-- `KeyError` from a failed dictionary lookup. -/
  | keyError : String → PyError
  /-- `IndexError` from an out-of-range list index. -/
  | indexError : PyError
  /-- `TypeError` from applying an operation to a value of the wrong type. -/
  | typeError : PyError
  /-- `AttributeError` from calling a method a value does not have. -/
  | attributeError : PyError
  /-- `UnboundLocalError` from reading a local that was never assigned. -/
  | nameError : PyError
  /-- a `response.json()` decode failure that propagates uncaught. -/
  | decodeError : PyError
deriving DecidableEq, Repr

/-- JSON values as delivered by `request.json()`. Dictionaries are
association lists in insertion order (Python 3.7+ dict semantics). -/
inductive JVal where
  | str : String → JVal
  | int : Int → JVal
  | bool : Bool → JVal
  | null : JVal
  | list : List JVal → JVal
  | dict : List (String × JVal) → JVal

/-- A Python dictionary with `String` keys. -/
abbrev Obj := List (String × JVal)

/-- Python `d[k]` lookup on a dict: first matching key. -/
def dget {α : Type} : List (String × α) → String → Option α
  | [], _ => none
  | (k', v') :: rest, k => if k' = k then some v' else dget rest k

/-- Python `d[k] = v`: replace the value in place if the key exists
(keeping its position), otherwise append the new pair. -/
def dset {α : Type} : List (String × α) → String → α → List (String × α)
  | [], k, v => [(k, v)]
  | (k', v') :: rest, k, v =>
    if k' = k then (k', v) :: rest else (k', v') :: dset rest k v

/-- Python `base.update(upd)`: fold `dset` over `upd` in order. -/
def dupdate {α : Type} (base upd : List (String × α)) : List (String × α) :=
  upd.foldl (fun b p => dset b p.1 p.2) base

/-- Python `d.keys()` in insertion order. -/
def dkeys {α : Type} (d : List (String × α)) : List String :=
  d.map Prod.fst

theorem dget_dset_self {α : Type} (l : List (String × α)) (k : String) (v : α) :
    dget (dset l k v) k = some v := by
  induction l with
  | nil => simp [dget, dset]
  | cons p rest ih =>
    by_cases h : p.1 = k
    · simp [dset, dget, h]
    · simp [dset, dget, h, ih]

theorem dget_dset_ne {α : Type} (l : List (String × α)) (k k' : String) (v : α)
    (h : k' ≠ k) : dget (dset l k v) k' = dget l k' := by
  have hne : ¬ k = k' := fun he => h he.symm
  induction l with
  | nil => simp [dget, dset, hne]
  | cons p rest ih =>
    obtain ⟨pk, pv⟩ := p
    by_cases hp : pk = k
    · subst hp
      simp [dset, dget, hne]
    · by_cases hp' : pk = k'
      · simp [dset, dget, hp, hp', h]
      · simp [dset, dget, hp, hp', ih]

theorem dget_eq_none_iff {α : Type} (l : List (String × α)) (k : String) :
    dget l k = none ↔ k ∉ dkeys l := by
  induction l with
  | nil => simp [dget, dkeys]
  | cons p rest ih =>
    obtain ⟨pk, pv⟩ := p
    by_cases h : pk = k
    · subst h
      simp [dget, dkeys]
    · have h' : ¬ k = pk := fun he => h he.symm
      simp [dget, dkeys, h, h']
      simpa [dkeys] using ih

theorem dget_of_mem_nodup {α : Type} {l : List (String × α)} {k : String} {v : α}
    (hnd : (dkeys l).Nodup) (hm : (k, v) ∈ l) : dget l k = some v := by
  induction l with
  | nil => cases hm
  | cons p rest ih =>
    obtain ⟨pk, pv⟩ := p
    have hnd' : pk ∉ dkeys rest ∧ (dkeys rest).Nodup := by
      simpa [dkeys] using hnd
    rcases List.mem_cons.mp hm with h | h
    · injection h with h1 h2
      subst h1; subst h2
      simp [dget]
    · have hk : k ∈ dkeys rest := List.mem_map.mpr ⟨(k, v), h, rfl⟩
      have hp : ¬ pk = k := fun he => hnd'.1 (he ▸ hk)
      simp [dget, hp, ih hnd'.2 h]

/-! ### Python string helpers (ASCII model) -/

/-- The space character used by `str.split(' ')`. -/
def spaceChar : Char := ' '

/-- Python's ASCII whitespace characters (`str.split()` separators). -/
def pyWsChars : List Char := [' ', '\t', '\n', '\r', '\x0b', '\x0c']

/-- Worker for `str.replace`: left-to-right, non-overlapping replacement
of a non-empty pattern, with explicit fuel (one unit per consumed
character) so it is structurally recursive. -/
def pyReplaceGo (pat repl : List Char) : Nat → List Char → List Char
  | _, [] => []
  | 0, cs => cs
  | n + 1, c :: cs =>
    if pat.isPrefixOf (c :: cs) ∧ pat ≠ [] then
      repl ++ pyReplaceGo pat repl n (cs.drop (pat.length - 1))
    else
      c :: pyReplaceGo pat repl n cs

/-- Python `s.replace(pat, repl)` (for a non-empty pattern). -/
def pyReplace (s pat repl : String) : String :=
  ⟨pyReplaceGo pat.data repl.data s.data.length s.data⟩

/-- Worker for `str.split(sep)`: split at every character satisfying
`isSep`, keeping empty fields (Python keeps them with an explicit
separator argument). -/
def splitKeepGo (isSep : Char → Bool) : List Char → List (List Char)
  | [] => [[]]
  | c :: cs =>
    if isSep c then [] :: splitKeepGo isSep cs
    else
      match splitKeepGo isSep cs with
      | t :: ts => (c :: t) :: ts
      | [] => [[c]]

/-- Python `s.split(' ')`: split on each single space, keeping empties. -/
def pySplitSpace (s : String) : List String :=
  (splitKeepGo (fun c => c = spaceChar) s.data).map String.mk

/-- Python `s.split()` (no argument): split on whitespace runs and drop
empty fields.  Used only to formalise the spec's wording, never by the
embedded code, which calls `split(' ')`. -/
def pySplitWs (s : String) : List String :=
  ((splitKeepGo (fun c => c ∈ pyWsChars) s.data).filter (fun t => t ≠ [])).map String.mk

/-- Python `s.lower()` (ASCII model). -/
def pyLower (s : String) : String := ⟨s.data.map Char.toLower⟩

/-- Python `xs[-k]` for `k ≥ 1`: the `k`-th element from the end, an
`IndexError` when the list is shorter than `k`. -/
def pyNegGet (xs : List String) (k : Nat) : Except PyError String :=
  if 1 ≤ k ∧ k ≤ xs.length then .ok (xs.getD (xs.length - k) "")
  else .error .indexError

/-- The `k`-th token from the end (total version, for specification). -/
def fromLast (xs : List String) (k : Nat) : String :=
  xs.getD (xs.length - k) ""

/-! ### `_parse_search_key_info` -/

/-- `_parse_search_key_info(search_key)`: normalise the literal
`"ann %"` to `"ann%"`, split on the space character, and take the
tokens at positions `-4`, `-3`, `-2` as `source_name`,
`indicator_name`, `uom`. -/
def parse_search_key_info (search_key : String) : Except PyError Obj := do
  let info := pySplitSpace (pyReplace search_key "ann %" "ann%")
  let s ← pyNegGet info 4
  let i ← pyNegGet info 3
  let u ← pyNegGet info 2
  return [("source_name", JVal.str s), ("indicator_name", JVal.str i),
          ("uom", JVal.str u)]

example : pySplitSpace "A B ann% growth index pct X" =
    ["A", "B", "ann%", "growth", "index", "pct", "X"] := rfl

example : pyReplace "A B ann % growth index pct X" "ann %" "ann%" =
    "A B ann% growth index pct X" := rfl

example : parse_search_key_info "A B ann % growth index pct X" =
    .ok [("source_name", JVal.str "growth"), ("indicator_name", JVal.str "index"),
         ("uom", JVal.str "pct")] := rfl

/-! ### `_retrieve_query_settings` -/

/-- The hardcoded API host of the module. -/
def queryUrl : String := "http://ec2-13-229-144-6.ap-southeast-1.compute.amazonaws.com"

/-- The settings dictionary built by `_retrieve_query_settings`, as a
typed record: `url`, `path`, `port`, plus the optional `method` entry. -/
structure Settings where
  url : String
  path : String
  port : String
  method : Option String
deriving DecidableEq, Repr

/-- Python truthiness of the `ds` argument (`False` is modelled as the
empty string; both are falsy and only the string case reaches `+`). -/
def pyTruthy (s : String) : Bool := s ≠ ""

/-- `_retrieve_query_settings(simple, add_method, ds)`: three-way branch
over `simple`/`ds`; if no branch assigned `path` the later read would
raise `UnboundLocalError` (that branch is unreachable but kept). -/
def retrieve_query_settings (simple add_method : Bool) (ds : String) :
    Except PyError Settings :=
  let pathE : Except PyError String :=
    if simple && !(pyTruthy ds) then .ok "ui_data_simple_query"
    else if !simple && !(pyTruthy ds) then .ok "ui_geosearch_query"
    else if pyTruthy ds then .ok ("datascience/" ++ ds)
    else .error .nameError
  match pathE with
  | .error e => .error e
  | .ok path =>
    .ok ⟨queryUrl, path, "5000", if add_method then some "POST" else none⟩

example : retrieve_query_settings false false "" =
    .ok ⟨queryUrl, "ui_geosearch_query", "5000", none⟩ := rfl

example : retrieve_query_settings true false "" =
    .ok ⟨queryUrl, "ui_data_simple_query", "5000", none⟩ := rfl

/-! ### Network model -/

/-- One HTTP request issued by the module: the formatted
`f mark url:port/path` string and the JSON body sent. -/
structure Call where
  url : String
  body : Obj

/-- `f'{url}:{port}/{path}'`. -/
def mkUrl (url port path : String) : String :=
  url ++ ":" ++ port ++ "/" ++ path

/-- The remote service as an oracle: for a request it yields either the
decoded JSON body, or `.error raw` when `response.json()` would fail to
decode (carrying the raw `response.content` text). Transport errors are
outside this model (they propagate uncaught, see spec section 7). -/
def Net : Type := Call → Except String JVal

/-- Outcome of running one public operation: the returned value or the
raised error, the network calls issued in order, and the lines printed. -/
structure RunResult (α : Type) where
  result : Except PyError α
  calls : List Call
  log : List String

/-- Python subscripting `v[k]` with a string key: a `KeyError` on a
dict without the key, a `TypeError` on any non-dict value. -/
def jGet : JVal → String → Except PyError JVal
  | .dict kvs, k =>
    match dget kvs k with
    | some v => .ok v
    | none => .error (.keyError k)
  | _, _ => .error .typeError

/-- Python iteration `for x in v`: lists yield their elements, dicts
their keys, strings their characters, anything else a `TypeError`. -/
def pyIter : JVal → Except PyError (List JVal)
  | .list xs => .ok xs
  | .dict kvs => .ok (kvs.map (fun kv => JVal.str kv.1))
  | .str s => .ok (s.data.map (fun c => JVal.str (String.mk [c])))
  | _ => .error .typeError

/-! ### `_match_key_to_actual` -/

/-- `_match_key_to_actual(url, port, path, sk)`: POST
`{search_key: sk, sudo: false}` and decode the response; a decode
failure propagates uncaught. -/
def match_key_to_actual (net : Net) (url port path sk : String) : RunResult JVal :=
  let data : Obj := [("search_key", JVal.str sk), ("sudo", JVal.bool false)]
  let call : Call := ⟨mkUrl url port path, data⟩
  match net call with
  | .ok j => ⟨.ok j, [call], []⟩
  | .error _ => ⟨.error .decodeError, [call], []⟩

/-! ### `_search_by_distance` and `search_by_distance` -/

/-- The stage-1 request body built by `_search_by_distance`. -/
def sbdRequestBody (location : String) (distance : Int) (distance_type : String)
    (include_indicators_with_assets : Bool) (folder_name : String)
    (indicator : Option String) : Obj :=
  let data : Obj := [
    ("location_name", JVal.str location),
    ("distance", JVal.int distance),
    ("distance_type", JVal.str (pyLower distance_type)),
    ("folder_name", JVal.str folder_name),
    ("include_indicators_with_assets", JVal.bool include_indicators_with_assets)]
  match indicator with
  | some ind => if pyTruthy ind then dset data "indicator_name_id" (JVal.str ind) else data
  | none => data

/-- The per-hit loop of `_search_by_distance`: for each hit take its
`search_key`, parse it, resolve it against the simple endpoint, and
store the parsed metadata plus the resolution's `responses` under the
search key (overwriting any earlier hit with the same key). -/
def sbdLoop (net : Net) (hits : List JVal) (results : List (String × JVal)) :
    Except PyError (List (String × JVal)) × List Call :=
  match hits with
  | [] => (.ok results, [])
  | hit :: rest =>
    match jGet hit "search_key" with
    | .error e => (.error e, [])
    | .ok (.str sk) =>
      match parse_search_key_info sk with
      | .error e => (.error e, [])
      | .ok sk_parsed =>
        match retrieve_query_settings true false "" with
        | .error e => (.error e, [])
        | .ok st =>
          let r2 := match_key_to_actual net st.url st.port st.path sk
          match r2.result with
          | .error e => (.error e, r2.calls)
          | .ok j2 =>
            match jGet j2 "responses" with
            | .error e => (.error e, r2.calls)
            | .ok resp =>
              let entry := dset sk_parsed "responses" resp
              match sbdLoop net rest (dset results sk (JVal.dict entry)) with
              | (res, cs) => (res, r2.calls ++ cs)
    | .ok _ => (.error .attributeError, [])

/-- `_search_by_distance(...)`: POST the stage-1 body; when the response
does not decode, log the failure and execute `return output` with
`output` never assigned (an `UnboundLocalError`); otherwise iterate
`responses[folder_name]` through `sbdLoop`. -/
def search_by_distance_impl (net : Net) (url port path location : String)
    (distance : Int) (distance_type : String)
    (include_indicators_with_assets : Bool) (folder_name : String)
    (indicator : Option String) : RunResult JVal :=
  let data := sbdRequestBody location distance distance_type
    include_indicators_with_assets folder_name indicator
  let call : Call := ⟨mkUrl url port path, data⟩
  match net call with
  | .error raw =>
    ⟨.error .nameError, [call], ["Request failed, see message error: ", raw]⟩
  | .ok j =>
    match jGet j "responses" with
    | .error e => ⟨.error e, [call], []⟩
    | .ok respObj =>
      match jGet respObj folder_name with
      | .error e => ⟨.error e, [call], []⟩
      | .ok hitsVal =>
        match pyIter hitsVal with
        | .error e => ⟨.error e, [call], []⟩
        | .ok hits =>
          match sbdLoop net hits [] with
          | (.error e, cs) => ⟨.error e, call :: cs, []⟩
          | (.ok results, cs) => ⟨.ok (.dict results), call :: cs, []⟩

/-- The validation message of `search_by_distance`. -/
def sbdValidationMsg : String :=
  "Invalid distance type. Please use either 'km' or 'miles'"

/-- `search_by_distance(...)`: validate `distance_type`, resolve the
geosearch settings, and delegate to `_search_by_distance`. -/
def search_by_distance (net : Net) (location : String) (distance : Int)
    (distance_type : String) (include_indicators_with_assets : Bool)
    (folder_name : String) (indicator : Option String) : RunResult JVal :=
  if ¬ (pyLower distance_type ∈ ["km", "miles"]) then
    ⟨.error (.validationError sbdValidationMsg), [], []⟩
  else
    match retrieve_query_settings false false "" with
    | .error e => ⟨.error e, [], []⟩
    | .ok st =>
      search_by_distance_impl net st.url st.port st.path location distance
        distance_type include_indicators_with_assets folder_name indicator

/-- `True` exactly on the distance-type validation failure. -/
def isValidationError {α : Type} : Except PyError α → Bool
  | .error (.validationError _) => true
  | _ => false

/-- `true` exactly on the validation failure among the error classes. -/
def errIsValidation : PyError → Bool
  | .validationError _ => true
  | _ => false

theorem isValidationError_eq {α : Type} (x : Except PyError α) :
    isValidationError x = match x with
      | .error e => errIsValidation e
      | .ok _ => false := by
  cases x with
  | error e => cases e <;> rfl
  | ok _ => rfl

theorem jGet_error {v : JVal} {k : String} {e : PyError}
    (h : jGet v k = .error e) : errIsValidation e = false := by
  cases v with
  | dict kvs =>
    cases hd : dget kvs k with
    | some w => simp [jGet, hd] at h
    | none => simp [jGet, hd] at h; cases h; rfl
  | str s => cases h; rfl
  | int n => cases h; rfl
  | bool b => cases h; rfl
  | null => cases h; rfl
  | list xs => cases h; rfl

theorem pyIter_error {v : JVal} {e : PyError}
    (h : pyIter v = .error e) : errIsValidation e = false := by
  cases v with
  | int n => cases h; rfl
  | bool b => cases h; rfl
  | null => cases h; rfl
  | str s => cases h
  | list xs => cases h
  | dict kvs => cases h

theorem pyNegGet_error {xs : List String} {k : Nat} {e : PyError}
    (h : pyNegGet xs k = .error e) : errIsValidation e = false := by
  unfold pyNegGet at h
  split at h
  · cases h
  · cases h; rfl

theorem parse_search_key_info_error {s : String} {e : PyError}
    (h : parse_search_key_info s = .error e) : errIsValidation e = false := by
  unfold parse_search_key_info at h
  simp only [bind, Except.bind] at h
  split at h
  · rename_i err heq
    injection h with h'
    subst h'
    exact pyNegGet_error heq
  · split at h
    · rename_i err heq
      injection h with h'
      subst h'
      exact pyNegGet_error heq
    · split at h
      · rename_i err heq
        injection h with h'
        subst h'
        exact pyNegGet_error heq
      · simp only [pure, Except.pure] at h
        cases h

theorem match_key_to_actual_error {net : Net} {u p pa sk : String} {e : PyError}
    (h : (match_key_to_actual net u p pa sk).result = .error e) :
    errIsValidation e = false := by
  simp only [match_key_to_actual] at h
  split at h
  · cases h
  · cases h; rfl

theorem retrieve_query_settings_error {s a : Bool} {d : String} {e : PyError}
    (h : retrieve_query_settings s a d = .error e) : errIsValidation e = false := by
  cases s <;> cases hd : pyTruthy d <;>
    simp [retrieve_query_settings, hd] at h

theorem sbdLoop_error {net : Net} {hits : List JVal} :
    ∀ {acc : List (String × JVal)} {cs : List Call} {e : PyError},
      sbdLoop net hits acc = (.error e, cs) → errIsValidation e = false := by
  induction hits with
  | nil =>
    intro acc cs e h
    simp [sbdLoop] at h
  | cons hit rest ih =>
    intro acc cs e h
    simp only [sbdLoop] at h
    split at h
    · rename_i err heq
      injection h with h1 h2
      injection h1 with h1
      subst h1
      exact jGet_error heq
    · split at h
      · rename_i err heq
        injection h with h1 h2
        injection h1 with h1
        subst h1
        exact parse_search_key_info_error heq
      · split at h
        · rename_i err heq
          injection h with h1 h2
          injection h1 with h1
          subst h1
          exact retrieve_query_settings_error heq
        · split at h
          · rename_i err heq
            injection h with h1 h2
            injection h1 with h1
            subst h1
            exact match_key_to_actual_error heq
          · split at h
            · rename_i err heq
              injection h with h1 h2
              injection h1 with h1
              subst h1
              exact jGet_error heq
            · injection h with h1 h2
              exact ih (by rw [← h1])
    · rename_i hv hnstr
      injection h with h1 h2
      injection h1 with h1
      subst h1
      rfl

theorem search_by_distance_impl_error {net : Net}
    {url port path location : String} {distance : Int} {distance_type : String}
    {iiwa : Bool} {folder_name : String} {indicator : Option String}
    {r : RunResult JVal} {e : PyError}
    (hr : search_by_distance_impl net url port path location distance
      distance_type iiwa folder_name indicator = r)
    (he : r.result = .error e) : errIsValidation e = false := by
  simp only [search_by_distance_impl] at hr
  split at hr
  · subst hr
    cases he
    rfl
  · split at hr
    · rename_i err heq
      subst hr
      cases he
      exact jGet_error heq
    · split at hr
      · rename_i err heq
        subst hr
        cases he
        exact jGet_error heq
      · split at hr
        · rename_i err heq
          subst hr
          cases he
          exact pyIter_error heq
        · split at hr
          · rename_i err cs heq
            subst hr
            cases he
            exact sbdLoop_error heq
          · subst hr
            cases he

/-- A network on which every response body fails to decode. -/
def netFail : Net := fun _ => .error "failure"

/-- C1: for every `distance_type` whose lowercasing is not `"km"` or
`"miles"`, `search_by_distance` raises the validation error and issues
no network call; for every `distance_type` whose lowercasing is in that
set, no validation error is raised (whatever the network returns). -/
theorem sbd_distance_type_validation (net : Net) (location : String)
    (distance : Int) (distance_type : String) (iiwa : Bool)
    (folder_name : String) (indicator : Option String) :
    (pyLower distance_type ∉ ["km", "miles"] →
      (search_by_distance net location distance distance_type iiwa
          folder_name indicator).result
        = .error (.validationError sbdValidationMsg) ∧
      (search_by_distance net location distance distance_type iiwa
          folder_name indicator).calls = []) ∧
    (pyLower distance_type ∈ ["km", "miles"] →
      isValidationError (search_by_distance net location distance distance_type
          iiwa folder_name indicator).result = false) := by
  constructor
  · intro hmem
    simp [search_by_distance, hmem]
  · intro hmem
    have hred : search_by_distance net location distance distance_type iiwa
        folder_name indicator = search_by_distance_impl net queryUrl "5000"
          "ui_geosearch_query" location distance distance_type iiwa
          folder_name indicator := by
      simp [search_by_distance, hmem, retrieve_query_settings, pyTruthy]
    rw [hred]
    cases hr : (search_by_distance_impl net queryUrl "5000"
        "ui_geosearch_query" location distance distance_type iiwa
        folder_name indicator).result with
    | ok v => rfl
    | error e =>
      rw [isValidationError_eq]
      exact search_by_distance_impl_error rfl hr

/-- Witness for C1 at concrete inputs: `"furlongs"` is rejected with no
network call, `"KM"` passes validation even on a failing network. -/
theorem sbd_distance_type_validation_witness :
    ((search_by_distance netFail "Sydney" 100 "furlongs" true "Any" none).result
        = .error (.validationError sbdValidationMsg) ∧
      (search_by_distance netFail "Sydney" 100 "furlongs" true "Any" none).calls
        = []) ∧
    isValidationError (search_by_distance netFail "Sydney" 100 "KM" true
        "Any" none).result = false := by
  constructor
  · exact (sbd_distance_type_validation netFail "Sydney" 100 "furlongs" true
      "Any" none).1 (by decide)
  · exact (sbd_distance_type_validation netFail "Sydney" 100 "KM" true
      "Any" none).2 (by decide)

/-- C2 counterexample: on `"a b c d "` (trailing space) the
whitespace-token reading of the spec predicts `source_name = "a"`
(the 4th-from-last whitespace token), but the code splits on the single
space character, keeps the empty trailing token, and returns
`source_name = "b"`. -/
theorem parse_search_key_ws_counterexample :
    4 ≤ (pySplitWs (pyReplace "a b c d " "ann %" "ann%")).length ∧
    fromLast (pySplitWs (pyReplace "a b c d " "ann %" "ann%")) 4 = "a" ∧
    Except.map (fun o => dget o "source_name")
        (parse_search_key_info "a b c d ") = .ok (some (JVal.str "b")) ∧
    (some (JVal.str "b") ≠ some (JVal.str "a")) := by
  refine ⟨by decide, by decide, rfl, ?_⟩
  intro hcontra
  injection hcontra with h1
  injection h1 with h2
  exact absurd h2 (by decide)

/-- C2 (amended): for every key whose `"ann %"`-normalised form yields
at least 4 tokens when split on the single space character (Python
`split(' ')`, empty tokens kept), the parser returns the 4th-, 3rd- and
2nd-from-last of those space-split tokens. -/
theorem parse_search_key_space_tokens (key : String)
    (h : 4 ≤ (pySplitSpace (pyReplace key "ann %" "ann%")).length) :
    parse_search_key_info key = .ok
      [("source_name",
        JVal.str (fromLast (pySplitSpace (pyReplace key "ann %" "ann%")) 4)),
       ("indicator_name",
        JVal.str (fromLast (pySplitSpace (pyReplace key "ann %" "ann%")) 3)),
       ("uom",
        JVal.str (fromLast (pySplitSpace (pyReplace key "ann %" "ann%")) 2))] := by
  have h3 : 3 ≤ (pySplitSpace (pyReplace key "ann %" "ann%")).length := by omega
  have h2 : 2 ≤ (pySplitSpace (pyReplace key "ann %" "ann%")).length := by omega
  unfold parse_search_key_info pyNegGet
  simp [bind, Except.bind, pure, Except.pure, h, h3, h2, fromLast]

/-- Witness for C2's amended theorem on `"a b c d "`. -/
theorem parse_search_key_space_tokens_witness :
    parse_search_key_info "a b c d " = .ok
      [("source_name", JVal.str "b"), ("indicator_name", JVal.str "c"),
       ("uom", JVal.str "d")] :=
  parse_search_key_space_tokens "a b c d " (by decide)

/-- C3 counterexample: on `"A B ann % growth index pct X"` the code
returns `{source_name: "growth", indicator_name: "index", uom: "pct"}`,
not the `{source_name: "index", indicator_name: "pct", uom: "X"}` the
spec's worked example promises. -/
theorem parse_search_key_example_counterexample :
    parse_search_key_info "A B ann % growth index pct X" = .ok
      [("source_name", JVal.str "growth"), ("indicator_name", JVal.str "index"),
       ("uom", JVal.str "pct")] ∧
    ([("source_name", JVal.str "growth"), ("indicator_name", JVal.str "index"),
      ("uom", JVal.str "pct")] : Obj) ≠
      [("source_name", JVal.str "index"), ("indicator_name", JVal.str "pct"),
       ("uom", JVal.str "X")] := by
  refine ⟨rfl, ?_⟩
  intro h
  injection h with h1 h2
  injection h1 with ha hb
  injection hb with hs
  exact absurd hs (by decide)

/-- C3 (amended): on `"A B ann % growth index pct X"` the parser yields
`{source_name: "growth", indicator_name: "index", uom: "pct"}` — the
normalisation joins `"ann %"` into one token and the extraction takes
positions `-4`, `-3`, `-2` of the 7 tokens. -/
theorem parse_search_key_example_amended :
    parse_search_key_info "A B ann % growth index pct X" = .ok
      [("source_name", JVal.str "growth"), ("indicator_name", JVal.str "index"),
       ("uom", JVal.str "pct")] := rfl

/-- C4: whenever `ds` is a non-empty string, `_retrieve_query_settings`
returns the settings with path `"datascience/" ++ ds`, for every value
of `simple` (and of `add_method`): the datascience branch takes
precedence over the `simple` flag. -/
theorem retrieve_settings_datascience (simple add_method : Bool) (ds : String)
    (h : ds ≠ "") :
    retrieve_query_settings simple add_method ds =
      .ok ⟨queryUrl, "datascience/" ++ ds, "5000",
           if add_method then some "POST" else none⟩ := by
  have ht : pyTruthy ds = true := by simpa [pyTruthy] using h
  cases simple <;> simp [retrieve_query_settings, ht]

/-- Witness for C4 with `simple = true`, `ds = "foo"`. -/
theorem retrieve_settings_datascience_witness :
    retrieve_query_settings true false "foo" =
      .ok ⟨queryUrl, "datascience/foo", "5000", none⟩ :=
  retrieve_settings_datascience true false "foo" (by decide)

/-! ### `parse_inner_lists` -/

/-- The `to_keep_columns` argument: the string `'all'` or an explicit
column list. -/
inductive KeepCols where
  | all
  | cols (cs : List String)

/-- The inner `for col in cols: r.update({col: src[col]})` loop shared
by both phases of `parse_inner_lists`. -/
def updateColsFromVal (src : JVal) (cols : List String) (r : Obj) :
    Except PyError Obj :=
  match cols with
  | [] => .ok r
  | c :: cs =>
    match jGet src c with
    | .error e => .error e
    | .ok v => updateColsFromVal src cs (dset r c v)

/-- The `for response in json_data[target]` loop of `parse_inner_lists`:
one fresh record per entry, nested columns first, kept outer columns
second. -/
def parse_inner_loop (json_data : Obj) (cols_from_nested to_keep : List String)
    (responses : List JVal) : Except PyError (List Obj) :=
  match responses with
  | [] => .ok []
  | response :: rest =>
    match updateColsFromVal response cols_from_nested [] with
    | .error e => .error e
    | .ok r1 =>
      match updateColsFromVal (JVal.dict json_data) to_keep r1 with
      | .error e => .error e
      | .ok r =>
        match parse_inner_loop json_data cols_from_nested to_keep rest with
        | .error e => .error e
        | .ok out => .ok (r :: out)

/-- `parse_inner_lists(json_data, cols_from_nested, target, keep)`:
unnest the list under `target` into one flat record per entry, merging
in the requested outer columns (`'all'` = every key except `target`). -/
def parse_inner_lists (json_data : Obj) (cols_from_nested : List String)
    (target_nested_column : String) (to_keep_columns : KeepCols) :
    Except PyError (List Obj) :=
  let to_keep := match to_keep_columns with
    | .all => (dkeys json_data).filter (fun col => col ≠ target_nested_column)
    | .cols cs => cs
  match dget json_data target_nested_column with
  | none => .error (.keyError target_nested_column)
  | some v =>
    match pyIter v with
    | .error e => .error e
    | .ok responses => parse_inner_loop json_data cols_from_nested to_keep responses

/-! ### `merge_keys` (value level)

This is the value-level embedding: it computes the returned list.  The
in-place `dict_.update` side effect on the argument's inner records is
modelled separately by the heap-level embedding further below. -/

/-- The inner `for dict_ in dictionary[key]` loop of `merge_keys`: each
record gains `key_name -> key`; a non-dict element has no `update`
method (`AttributeError`). -/
def merge_keys_inner (key key_name : String) (ds : List JVal) :
    Except PyError (List Obj) :=
  match ds with
  | [] => .ok []
  | .dict o :: rest =>
    match merge_keys_inner key key_name rest with
    | .error e => .error e
    | .ok out => .ok (dset o key_name (JVal.str key) :: out)
  | _ :: _ => .error .attributeError

/-- The outer `for key in dictionary.keys()` loop of `merge_keys`. -/
def merge_keys_loop (dictionary : List (String × JVal)) (keys : List String)
    (key_name : String) : Except PyError (List Obj) :=
  match keys with
  | [] => .ok []
  | k :: ks =>
    match dget dictionary k with
    | none => .error (.keyError k)
    | some v =>
      match pyIter v with
      | .error e => .error e
      | .ok ds =>
        match merge_keys_inner k key_name ds with
        | .error e => .error e
        | .ok out1 =>
          match merge_keys_loop dictionary ks key_name with
          | .error e => .error e
          | .ok out2 => .ok (out1 ++ out2)

/-- `merge_keys(dictionary, key_name)`: flatten a dict of record lists
into one list, tagging each record with its outer key under `key_name`. -/
def merge_keys (dictionary : List (String × JVal)) (key_name : String) :
    Except PyError (List Obj) :=
  merge_keys_loop dictionary (dkeys dictionary) key_name

/-! ### `return_all_national_indicators` -/

/-- The `for result in request.json()['responses'][tag]` inner loop of
`return_all_national_indicators`.  Each iteration rebinds
`results[tag]` (the transient `results[tag] = {}` is overwritten in the
same iteration and never observable), parses the hit's search key,
resolves it, and stores the parsed metadata updated with the whole
stage-2 payload (`results[tag].update(result2)`, modelled for the
mapping-shaped payloads the remote contract delivers). -/
def natTagLoop (net : Net) (hits : List JVal) (cur : Option JVal) :
    Except PyError (Option JVal) × List Call :=
  match hits with
  | [] => (.ok cur, [])
  | hit :: rest =>
    match jGet hit "search_key" with
    | .error e => (.error e, [])
    | .ok (.str sk) =>
      match parse_search_key_info sk with
      | .error e => (.error e, [])
      | .ok sk_parsed =>
        match retrieve_query_settings true false "" with
        | .error e => (.error e, [])
        | .ok st =>
          let r2 := match_key_to_actual net st.url st.port st.path sk
          match r2.result with
          | .error e => (.error e, r2.calls)
          | .ok (.dict o2) =>
            match natTagLoop net rest (some (JVal.dict (dupdate sk_parsed o2))) with
            | (res, cs) => (res, r2.calls ++ cs)
          | .ok _ => (.error .typeError, r2.calls)
    | .ok _ => (.error .attributeError, [])

/-- The `for tag in json_out['responses']` outer loop of
`return_all_national_indicators`, including the per-tag `parse_json`
unnesting step guarded by `if tag in results.keys()`. -/
def natOuterLoop (net : Net) (resp : List (String × JVal)) (tagKeys : List String)
    (parse_json : Bool) (results : List (String × JVal)) :
    Except PyError (List (String × JVal)) × List Call :=
  match tagKeys with
  | [] => (.ok results, [])
  | tag :: rest =>
    match dget resp tag with
    | none => (.error (.keyError tag), [])
    | some hitsVal =>
      match pyIter hitsVal with
      | .error e => (.error e, [])
      | .ok hits =>
        match natTagLoop net hits (dget results tag) with
        | (.error e, cs) => (.error e, cs)
        | (.ok tagFinal, cs) =>
          let results1 := match tagFinal with
            | some v => dset results tag v
            | none => results
          let step : Except PyError (List (String × JVal)) :=
            if parse_json then
              match dget results1 tag with
              | none => .ok results1
              | some (.dict obj) =>
                match parse_inner_lists obj ["actual_value", "date"]
                    "responses" .all with
                | .error e => .error e
                | .ok out => .ok (dset results1 tag (.list (out.map .dict)))
              | some _ => .error .attributeError
            else .ok results1
          match step with
          | .error e => (.error e, cs)
          | .ok results2 =>
            match natOuterLoop net resp rest parse_json results2 with
            | (r3, cs2) => (r3, cs ++ cs2)

/-- The stage-1 request of `return_all_national_indicators`. -/
def natRequest (location : String) : Call :=
  ⟨mkUrl queryUrl "5000" "ui_geosearch_query",
   [("location_name", JVal.str location), ("distance_type", JVal.str "km"),
    ("only_nationals", JVal.bool true)]⟩

/-- `return_all_national_indicators(location, parse_json)`: POST the
national query (default settings resolve to the geosearch endpoint),
group the hits of each tag through `natTagLoop` (ResultSet keyed by
tag), optionally unnest each tag's entry, and when `parse_json` is set
finish with `merge_keys(results, 'folder_name')`. -/
def return_all_national_indicators (net : Net) (location : String)
    (parse_json : Bool) : RunResult JVal :=
  match retrieve_query_settings false false "" with
  | .error e => ⟨.error e, [], []⟩
  | .ok st =>
    let call : Call := ⟨mkUrl st.url st.port st.path,
      [("location_name", JVal.str location), ("distance_type", JVal.str "km"),
       ("only_nationals", JVal.bool true)]⟩
    match net call with
    | .error _ => ⟨.error .decodeError, [call], []⟩
    | .ok json_out =>
      match jGet json_out "responses" with
      | .error e => ⟨.error e, [call], []⟩
      | .ok (.dict tagsResp) =>
        match natOuterLoop net tagsResp (dkeys tagsResp) parse_json [] with
        | (.error e, cs) => ⟨.error e, call :: cs, []⟩
        | (.ok results, cs) =>
          if parse_json then
            match merge_keys results "folder_name" with
            | .error e => ⟨.error e, call :: cs, []⟩
            | .ok merged => ⟨.ok (.list (merged.map .dict)), call :: cs, []⟩
          else ⟨.ok (.dict results), call :: cs, []⟩
      | .ok _ => ⟨.error .typeError, [call], []⟩

/-- C5: when the stage-1 response of `search_by_distance` fails to
decode, the decode failure is caught, the raw response is logged after
the failure message, exactly the one stage-1 call was issued, and the
operation aborts by raising `UnboundLocalError` from `return output`
(the decode error itself never reaches the caller, and no value is
returned). -/
theorem sbd_stage1_decode_failure (net : Net) (location : String)
    (distance : Int) (distance_type : String) (iiwa : Bool)
    (folder_name : String) (indicator : Option String) (raw : String)
    (hdt : pyLower distance_type ∈ ["km", "miles"])
    (hnet : net ⟨mkUrl queryUrl "5000" "ui_geosearch_query",
      sbdRequestBody location distance distance_type iiwa folder_name indicator⟩
        = .error raw) :
    (search_by_distance net location distance distance_type iiwa folder_name
        indicator).result = .error .nameError ∧
    (search_by_distance net location distance distance_type iiwa folder_name
        indicator).log = ["Request failed, see message error: ", raw] ∧
    (search_by_distance net location distance distance_type iiwa folder_name
        indicator).calls = [⟨mkUrl queryUrl "5000" "ui_geosearch_query",
      sbdRequestBody location distance distance_type iiwa folder_name indicator⟩] ∧
    (search_by_distance net location distance distance_type iiwa folder_name
        indicator).result ≠ .error .decodeError := by
  have hred : search_by_distance net location distance distance_type iiwa
      folder_name indicator = search_by_distance_impl net queryUrl "5000"
        "ui_geosearch_query" location distance distance_type iiwa
        folder_name indicator := by
    simp [search_by_distance, hdt, retrieve_query_settings, pyTruthy]
  rw [hred]
  simp only [search_by_distance_impl, hnet]
  refine ⟨trivial, trivial, trivial, ?_⟩
  intro h
  injection h with h1
  cases h1

/-- Witness for C5: a network whose every body fails to decode, with a
valid `"km"` distance type. -/
theorem sbd_stage1_decode_failure_witness :
    (search_by_distance netFail "Sydney" 100 "km" true "Any" none).result
      = .error .nameError ∧
    (search_by_distance netFail "Sydney" 100 "km" true "Any" none).log
      = ["Request failed, see message error: ", "failure"] ∧
    (search_by_distance netFail "Sydney" 100 "km" true "Any" none).calls
      = [⟨mkUrl queryUrl "5000" "ui_geosearch_query",
          sbdRequestBody "Sydney" 100 "km" true "Any" none⟩] ∧
    (search_by_distance netFail "Sydney" 100 "km" true "Any" none).result
      ≠ .error .decodeError :=
  sbd_stage1_decode_failure netFail "Sydney" 100 "km" true "Any" none
    "failure" (by decide) rfl

/-! ### Overwrite semantics of the two result-building loops (C6) -/

/-- The ResultSet key a stage-1 hit produces in `_search_by_distance`
(its `search_key` field), when processing would get that far. -/
def sbdHitKey (hit : JVal) : Option String :=
  match jGet hit "search_key" with
  | .ok (.str s) => some s
  | _ => none

/-- The ResultSet entry a stage-1 hit produces in `_search_by_distance`:
parsed metadata plus the stage-2 payload's `responses` field. -/
def sbdHitEntry (net : Net) (hit : JVal) : Option JVal :=
  match jGet hit "search_key" with
  | .ok (.str sk) =>
    match parse_search_key_info sk with
    | .ok sk_parsed =>
      match retrieve_query_settings true false "" with
      | .ok st =>
        match (match_key_to_actual net st.url st.port st.path sk).result with
        | .ok j2 =>
          match jGet j2 "responses" with
          | .ok resp => some (JVal.dict (dset sk_parsed "responses" resp))
          | .error _ => none
        | .error _ => none
      | .error _ => none
    | .error _ => none
  | _ => none

/-- The ResultSet entry a hit produces in
`return_all_national_indicators`: parsed metadata updated with the
whole stage-2 payload. -/
def natHitEntry (net : Net) (hit : JVal) : Option JVal :=
  match jGet hit "search_key" with
  | .ok (.str sk) =>
    match parse_search_key_info sk with
    | .ok sk_parsed =>
      match retrieve_query_settings true false "" with
      | .ok st =>
        match (match_key_to_actual net st.url st.port st.path sk).result with
        | .ok (.dict o2) => some (JVal.dict (dupdate sk_parsed o2))
        | _ => none
      | .error _ => none
    | .error _ => none
  | _ => none

theorem getLast?_cons_eq {α : Type} (x : α) (l : List α) :
    (x :: l).getLast? = some ((l.getLast?).getD x) := by
  induction l generalizing x with
  | nil => rfl
  | cons y ys ih =>
    rw [List.getLast?_cons_cons, ih y]
    simp

theorem sbdLoop_dget_last {net : Net} {hits : List JVal} :
    ∀ {acc R : List (String × JVal)} {cs : List Call} {k : String},
      sbdLoop net hits acc = (.ok R, cs) →
      dget R k =
        (match (hits.filter (fun h => sbdHitKey h == some k)).getLast? with
         | some h => sbdHitEntry net h
         | none => dget acc k) := by
  induction hits with
  | nil =>
    intro acc R cs k h
    simp only [sbdLoop] at h
    injection h with h1 h2
    injection h1 with h1
    subst h1
    simp [List.filter]
  | cons hit rest ih =>
    intro acc R cs k h
    simp only [sbdLoop] at h
    split at h
    · injection h with h1 h2; cases h1
    · split at h
      · injection h with h1 h2; cases h1
      · split at h
        · injection h with h1 h2; cases h1
        · split at h
          · injection h with h1 h2; cases h1
          · split at h
            · injection h with h1 h2; cases h1
            · rename_i v1 sk heqk x2 sk_parsed heqp x3 st heqs x4 j2 heqm x5 resp heqr
              injection h with h1 h2
              have hrest : sbdLoop net rest
                  (dset acc sk (JVal.dict (dset sk_parsed "responses" resp)))
                  = (.ok R, (sbdLoop net rest
                      (dset acc sk (JVal.dict (dset sk_parsed "responses" resp)))).2) := by
                rw [← h1]
              have ihr := ih hrest (k := k)
              have hkey : sbdHitKey hit = some sk := by
                simp [sbdHitKey, heqk]
              have hentry : sbdHitEntry net hit =
                  some (JVal.dict (dset sk_parsed "responses" resp)) := by
                simp [sbdHitEntry, heqk, heqp, heqs, heqm, heqr]
              by_cases hkk : sk = k
              · subst hkk
                have hfilter :
                    (hit :: rest).filter (fun h => sbdHitKey h == some sk)
                      = hit :: rest.filter (fun h => sbdHitKey h == some sk) := by
                  simp [List.filter, hkey]
                rw [hfilter, getLast?_cons_eq]
                cases hlast : (rest.filter (fun h => sbdHitKey h == some sk)).getLast? with
                | none =>
                  rw [ihr, hlast]
                  simp [dget_dset_self, hentry]
                | some h' =>
                  rw [ihr, hlast]
                  simp
              · have hfilter :
                    (hit :: rest).filter (fun h => sbdHitKey h == some k)
                      = rest.filter (fun h => sbdHitKey h == some k) := by
                  have hb : (sk == k) = false := beq_eq_false_iff_ne.mpr hkk
                  simp [List.filter, hkey, hb]
                rw [hfilter, ihr]
                cases hlast : (rest.filter (fun h => sbdHitKey h == some k)).getLast? with
                | none =>
                  simp [dget_dset_ne _ _ _ _ (fun he => hkk he.symm)]
                | some h' => simp
    · injection h with h1 h2; cases h1

theorem natTagLoop_last {net : Net} {hits : List JVal} :
    ∀ {cur tagFinal : Option JVal} {cs : List Call},
      natTagLoop net hits cur = (.ok tagFinal, cs) →
      tagFinal =
        (match hits.getLast? with
         | none => cur
         | some h => natHitEntry net h) := by
  induction hits with
  | nil =>
    intro cur tagFinal cs h
    simp only [natTagLoop] at h
    injection h with h1 h2
    injection h1 with h1
    subst h1
    rfl
  | cons hit rest ih =>
    intro cur tagFinal cs h
    simp only [natTagLoop] at h
    split at h
    · injection h with h1 h2; cases h1
    · split at h
      · injection h with h1 h2; cases h1
      · split at h
        · injection h with h1 h2; cases h1
        · split at h
          · injection h with h1 h2; cases h1
          · rename_i v1 sk heqk x2 sk_parsed heqp x3 st heqs x4 o2 heqm
            injection h with h1 h2
            have hrest : natTagLoop net rest (some (JVal.dict (dupdate sk_parsed o2)))
                = (.ok tagFinal, (natTagLoop net rest
                    (some (JVal.dict (dupdate sk_parsed o2)))).2) := by
              rw [← h1]
            have ihr := ih hrest
            have hentry : natHitEntry net hit = some (JVal.dict (dupdate sk_parsed o2)) := by
              simp [natHitEntry, heqk, heqp, heqs, heqm]
            rw [getLast?_cons_eq]
            cases hlast : rest.getLast? with
            | none =>
              rw [ihr, hlast]
              simp [hentry]
            | some h' =>
              rw [ihr, hlast]
              simp
          · injection h with h1 h2; cases h1
    · injection h with h1 h2; cases h1

/-- C6: in both result-building loops, an earlier hit's entry is
overwritten by a later hit with the same ResultSet key.  In
`_search_by_distance` the final value under any key `k` is the entry of
the last hit whose search key is `k` (falling back to the incoming
accumulator); in `return_all_national_indicators` the value stored for
a tag is the entry of the last hit of that tag's list. -/
theorem result_overwrite_last_hit :
    (∀ (net : Net) (hits : List JVal) (acc R : List (String × JVal))
       (cs : List Call) (k : String),
       sbdLoop net hits acc = (.ok R, cs) →
       dget R k =
         (match (hits.filter (fun h => sbdHitKey h == some k)).getLast? with
          | some h => sbdHitEntry net h
          | none => dget acc k)) ∧
    (∀ (net : Net) (hits : List JVal) (cur tagFinal : Option JVal)
       (cs : List Call),
       natTagLoop net hits cur = (.ok tagFinal, cs) →
       tagFinal =
         (match hits.getLast? with
          | none => cur
          | some h => natHitEntry net h)) :=
  ⟨fun _ _ _ _ _ _ h => sbdLoop_dget_last h,
   fun _ _ _ _ _ h => natTagLoop_last h⟩

/-- A network whose every response decodes to
`{"responses": [1]}` (concrete oracle for the C6 witness). -/
def netConst : Net := fun _ => .ok (.dict [("responses", JVal.list [JVal.int 1])])

/-- A concrete stage-1 hit whose search key has exactly 4 tokens. -/
def hitA : JVal := .dict [("search_key", JVal.str "src ind uom x")]

/-- The entry `hitA` produces against `netConst` (in both loops the
parsed metadata ends up extended with the same `responses` payload). -/
def entryA : Obj :=
  [("source_name", JVal.str "src"), ("indicator_name", JVal.str "ind"),
   ("uom", JVal.str "uom"), ("responses", JVal.list [JVal.int 1])]

/-- Witness for C6: two identical hits processed in sequence leave a
single entry, the one of the last hit. -/
theorem result_overwrite_last_hit_witness :
    (dget [("src ind uom x", JVal.dict entryA)] "src ind uom x" =
      (match ([hitA, hitA].filter
          (fun h => sbdHitKey h == some "src ind uom x")).getLast? with
       | some h => sbdHitEntry netConst h
       | none => dget ([] : List (String × JVal)) "src ind uom x")) ∧
    ((some (JVal.dict entryA) : Option JVal) =
      (match [hitA, hitA].getLast? with
       | none => (none : Option JVal)
       | some h => natHitEntry netConst h)) := by
  constructor
  · exact result_overwrite_last_hit.1 netConst [hitA, hitA] [] _ _
      "src ind uom x" rfl
  · exact result_overwrite_last_hit.2 netConst [hitA, hitA] none _ _ rfl

/-! ### C7: `parse_inner_lists` -/

theorem parse_inner_loop_length {json_data : Obj} {cf tk : List String} :
    ∀ {responses : List JVal} {out : List Obj},
      parse_inner_loop json_data cf tk responses = .ok out →
      out.length = responses.length := by
  intro responses
  induction responses with
  | nil =>
    intro out h
    injection h with h1
    subst h1
    rfl
  | cons r rest ih =>
    intro out h
    simp only [parse_inner_loop] at h
    split at h
    · cases h
    · split at h
      · cases h
      · split at h
        · cases h
        · rename_i r1 hr1 r2 hr2 out' hout
          injection h with h1
          subst h1
          simp [ih hout]

/-- The spec's worked example input for `parse_inner_lists`. -/
def exampleRecord : Obj :=
  [("responses", JVal.list
     [JVal.dict [("actual_value", JVal.int 1), ("date", JVal.str "2020")],
      JVal.dict [("actual_value", JVal.int 2), ("date", JVal.str "2021")]]),
   ("folder_name", JVal.str "Retail")]

/-- C7: on the worked example, `parse_inner_lists` returns the two flat
records with `folder_name` merged into each; in general a successful
run yields exactly one record per entry of the nested container. -/
theorem parse_inner_lists_spec :
    (parse_inner_lists exampleRecord ["actual_value", "date"] "responses" .all
      = .ok [[("actual_value", JVal.int 1), ("date", JVal.str "2020"),
              ("folder_name", JVal.str "Retail")],
             [("actual_value", JVal.int 2), ("date", JVal.str "2021"),
              ("folder_name", JVal.str "Retail")]]) ∧
    (∀ (json_data : Obj) (cols_from_nested : List String) (target : String)
       (keep : KeepCols) (out : List Obj) (container : List JVal),
       parse_inner_lists json_data cols_from_nested target keep = .ok out →
       dget json_data target = some (.list container) →
       out.length = container.length) := by
  constructor
  · rfl
  · intro json_data cols_from_nested target keep out container h hc
    simp only [parse_inner_lists] at h
    rw [hc] at h
    simp only [pyIter] at h
    exact parse_inner_loop_length h

/-- Witness for C7: on the worked example the container has 2 entries
and the output has 2 records. -/
theorem parse_inner_lists_spec_witness :
    ([[("actual_value", JVal.int 1), ("date", JVal.str "2020"),
       ("folder_name", JVal.str "Retail")],
      [("actual_value", JVal.int 2), ("date", JVal.str "2021"),
       ("folder_name", JVal.str "Retail")]] : List Obj).length =
      ([JVal.dict [("actual_value", JVal.int 1), ("date", JVal.str "2020")],
        JVal.dict [("actual_value", JVal.int 2), ("date", JVal.str "2021")]]
        : List JVal).length :=
  parse_inner_lists_spec.2 exampleRecord ["actual_value", "date"] "responses"
    .all _ _ rfl rfl

/-! ### C8: `merge_keys` -/

theorem merge_keys_inner_spec (k kn : String) (os : List Obj) :
    merge_keys_inner k kn (os.map JVal.dict)
      = .ok (os.map (fun r => dset r kn (JVal.str k))) := by
  induction os with
  | nil => rfl
  | cons o rest ih => simp [merge_keys_inner, ih]

theorem merge_keys_loop_spec (dm : List (String × JVal)) (kn : String) :
    ∀ (d : List (String × List Obj)),
      (∀ p ∈ d, dget dm p.1 = some (JVal.list (p.2.map JVal.dict))) →
      merge_keys_loop dm (d.map Prod.fst) kn
        = .ok (d.flatMap (fun p => p.2.map (fun r => dset r kn (JVal.str p.1)))) := by
  intro d
  induction d with
  | nil => intro _; rfl
  | cons p rest ih =>
    intro hall
    have hp := hall p (List.mem_cons_self p rest)
    have hrest := ih (fun q hq => hall q (List.mem_cons_of_mem p hq))
    simp only [List.map_cons, merge_keys_loop, hp, pyIter,
      merge_keys_inner_spec, hrest]
    rw [List.flatMap_cons]

/-- C8: `merge_keys` on a mapping (with Python-unique keys) from keys to
lists of records returns the concatenation, in outer-then-inner order,
of every record augmented with `key_name` set to its outer key; on the
spec's worked example it yields the three tagged records. -/
theorem merge_keys_flatten_spec :
    (∀ (d : List (String × List Obj)) (kn : String),
       (dkeys d).Nodup →
       merge_keys (d.map (fun p => (p.1, JVal.list (p.2.map JVal.dict)))) kn
         = .ok (d.flatMap (fun p => p.2.map (fun r => dset r kn (JVal.str p.1))))) ∧
    merge_keys [("A", JVal.list [JVal.dict [("x", JVal.int 1)]]),
                ("B", JVal.list [JVal.dict [("x", JVal.int 2)],
                                 JVal.dict [("x", JVal.int 3)]])] "tag"
      = .ok [[("x", JVal.int 1), ("tag", JVal.str "A")],
             [("x", JVal.int 2), ("tag", JVal.str "B")],
             [("x", JVal.int 3), ("tag", JVal.str "B")]] := by
  constructor
  · intro d kn hnd
    have hkeys : dkeys (d.map (fun p => (p.1, JVal.list (p.2.map JVal.dict))))
        = d.map Prod.fst := by
      simp [dkeys, List.map_map]
    have hnd' : (dkeys (d.map (fun p => (p.1, JVal.list (p.2.map JVal.dict))))).Nodup := by
      rw [hkeys]
      simpa [dkeys] using hnd
    have hall : ∀ p ∈ d,
        dget (d.map (fun p => (p.1, JVal.list (p.2.map JVal.dict)))) p.1
          = some (JVal.list (p.2.map JVal.dict)) := by
      intro p hp
      exact dget_of_mem_nodup hnd'
        (List.mem_map.mpr ⟨p, hp, rfl⟩)
    unfold merge_keys
    rw [hkeys]
    exact merge_keys_loop_spec _ kn d hall
  · rfl

/-- Witness for C8 on a one-key mapping with distinct data from the
worked example. -/
theorem merge_keys_flatten_spec_witness :
    merge_keys ([("K", [[("y", JVal.int 7)]])].map
        (fun p => (p.1, JVal.list (p.2.map JVal.dict)))) "tag"
      = .ok ([("K", [[("y", JVal.int 7)]])].flatMap
        (fun p => p.2.map (fun r => dset r "tag" (JVal.str p.1)))) :=
  merge_keys_flatten_spec.1 [("K", [[("y", JVal.int 7)]])] "tag" (by decide)

/-! ### C10: tags with no hits are absent from the national ResultSet -/

theorem merge_keys_inner_mem {k kn : String} :
    ∀ {ds : List JVal} {out : List Obj},
      merge_keys_inner k kn ds = .ok out →
      ∀ r ∈ out, dget r kn = some (JVal.str k) := by
  intro ds
  induction ds with
  | nil =>
    intro out h r hr
    injection h with h1
    subst h1
    cases hr
  | cons d rest ih =>
    intro out h r hr
    cases d with
    | dict o =>
      rw [show merge_keys_inner k kn (JVal.dict o :: rest)
          = (match merge_keys_inner k kn rest with
             | .error e => .error e
             | .ok out' => .ok (dset o kn (JVal.str k) :: out')) from rfl] at h
      split at h
      · cases h
      · rename_i out' hout
        injection h with h1
        subst h1
        rcases List.mem_cons.mp hr with hh | hh
        · subst hh
          exact dget_dset_self _ _ _
        · exact ih hout r hh
    | str s =>
      have h' : (Except.error PyError.attributeError
          : Except PyError (List Obj)) = .ok out := h
      cases h'
    | int n =>
      have h' : (Except.error PyError.attributeError
          : Except PyError (List Obj)) = .ok out := h
      cases h'
    | bool b =>
      have h' : (Except.error PyError.attributeError
          : Except PyError (List Obj)) = .ok out := h
      cases h'
    | null =>
      have h' : (Except.error PyError.attributeError
          : Except PyError (List Obj)) = .ok out := h
      cases h'
    | list xs =>
      have h' : (Except.error PyError.attributeError
          : Except PyError (List Obj)) = .ok out := h
      cases h'

theorem merge_keys_loop_mem {dm : List (String × JVal)} {kn : String} :
    ∀ {ks : List String} {out : List Obj},
      merge_keys_loop dm ks kn = .ok out →
      ∀ r ∈ out, ∃ k ∈ ks, dget r kn = some (JVal.str k) := by
  intro ks
  induction ks with
  | nil =>
    intro out h r hr
    injection h with h1
    subst h1
    cases hr
  | cons k ks' ih =>
    intro out h r hr
    simp only [merge_keys_loop] at h
    split at h
    · cases h
    · split at h
      · cases h
      · split at h
        · cases h
        · rename_i v hv ds hds out1 hout1
          split at h
          · cases h
          · rename_i out2 hout2
            injection h with h1
            subst h1
            rcases List.mem_append.mp hr with hh | hh
            · exact ⟨k, List.mem_cons_self k ks',
                merge_keys_inner_mem hout1 r hh⟩
            · obtain ⟨k', hk', hd⟩ := ih hout2 r hh
              exact ⟨k', List.mem_cons_of_mem k hk', hd⟩

theorem natOuterLoop_absent {net : Net} {resp : List (String × JVal)}
    {t : String} {pj : Bool} (hresp : dget resp t = some (JVal.list [])) :
    ∀ {tagKeys : List String} {acc R : List (String × JVal)} {cs : List Call},
      dget acc t = none →
      natOuterLoop net resp tagKeys pj acc = (.ok R, cs) →
      dget R t = none := by
  intro tagKeys
  induction tagKeys with
  | nil =>
    intro acc R cs hacc h
    have h' : ((.ok acc : Except PyError (List (String × JVal))),
        ([] : List Call)) = (.ok R, cs) := h
    injection h' with h1 h2
    injection h1 with h1
    subst h1
    exact hacc
  | cons tag rest ih =>
    intro acc R cs hacc h
    by_cases htag : tag = t
    · subst htag
      simp only [natOuterLoop, hresp, pyIter, natTagLoop, hacc, ite_self] at h
      injection h with h1 h2
      exact ih hacc (by rw [← h1])
    · have hne : t ≠ tag := fun he => htag he.symm
      simp only [natOuterLoop] at h
      split at h
      · cases h
      · split at h
        · cases h
        · split at h
          · cases h
          · rename_i tagFinal cs1 hloop
            split at h
            · cases h
            · rename_i results2 hstep
              injection h with h1 h2
              refine ih ?_ (by rw [← h1])
              have hres1 : dget (match tagFinal with
                  | some v => dset acc tag v
                  | none => acc) t = none := by
                cases tagFinal with
                | none => exact hacc
                | some v => exact (dget_dset_ne _ _ _ _ hne).trans hacc
              split at hstep
              · split at hstep
                · injection hstep with h3
                  subst h3
                  exact hres1
                · split at hstep
                  · cases hstep
                  · injection hstep with h3
                    subst h3
                    exact (dget_dset_ne _ _ _ _ hne).trans hres1
                · cases hstep
              · injection hstep with h3
                subst h3
                exact hres1

/-- C10: when a tag of the national stage-1 response maps to an empty
hit list, `return_all_national_indicators` produces no entry for that
tag: with `parse_json = false` the returned dict has no key `t`, and
with `parse_json = true` no flattened record carries
`folder_name = t`. -/
theorem national_empty_tag_absent (net : Net) (location : String)
    (parse_json : Bool) (j : JVal) (tagsResp : List (String × JVal))
    (t : String) (out : JVal)
    (hnet : net (natRequest location) = .ok j)
    (hresp : jGet j "responses" = .ok (.dict tagsResp))
    (hmem : (t, JVal.list []) ∈ tagsResp)
    (hnd : (dkeys tagsResp).Nodup)
    (hout : (return_all_national_indicators net location parse_json).result
      = .ok out) :
    (parse_json = false → ∀ R, out = .dict R → dget R t = none) ∧
    (parse_json = true → ∀ recs, out = .list recs →
      ∀ r ∈ recs, ∀ o : Obj, r = .dict o →
        dget o "folder_name" ≠ some (JVal.str t)) := by
  have hrespt : dget tagsResp t = some (JVal.list []) :=
    dget_of_mem_nodup hnd hmem
  have hsettings : retrieve_query_settings false false ""
      = .ok ⟨queryUrl, "ui_geosearch_query", "5000", none⟩ := rfl
  have hnet' : net ⟨mkUrl queryUrl "5000" "ui_geosearch_query",
      [("location_name", JVal.str location), ("distance_type", JVal.str "km"),
       ("only_nationals", JVal.bool true)]⟩ = .ok j := hnet
  simp only [return_all_national_indicators, hsettings, hnet', hresp] at hout
  rcases hloop : natOuterLoop net tagsResp (dkeys tagsResp) parse_json []
    with ⟨res, cs⟩
  rw [hloop] at hout
  cases res with
  | error e => cases hout
  | ok results =>
    have habsent : dget results t = none :=
      natOuterLoop_absent hrespt (by rfl) hloop
    cases parse_json with
    | false =>
      simp only [Bool.false_eq_true, if_false] at hout
      injection hout with h1
      constructor
      · intro _ R hR
        rw [← h1] at hR
        injection hR with hR
        subst hR
        exact habsent
      · intro hcontra
        cases hcontra
    | true =>
      simp only [if_true] at hout
      split at hout
      · cases hout
      · rename_i merged hmerged
        injection hout with h1
        constructor
        · intro hcontra
          cases hcontra
        · intro _ recs hrecs r hrmem o hro hfold
          rw [← h1] at hrecs
          injection hrecs with hrecs
          subst hrecs
          obtain ⟨o', ho'mem, ho'⟩ := List.mem_map.mp hrmem
          rw [← ho'] at hro
          injection hro with hro
          subst hro
          obtain ⟨k, hk, hdget⟩ :=
            merge_keys_loop_mem hmerged o' ho'mem
          have hkt : k ≠ t := by
            intro he
            rw [he] at hk
            exact ((dget_eq_none_iff results t).mp habsent) hk
          rw [hdget] at hfold
          injection hfold with hf
          injection hf with hf
          exact hkt hf

/-- A network returning the national stage-1 body
`{"responses": {"T": []}}` (concrete oracle for the C10 witness). -/
def netNat : Net :=
  fun _ => .ok (.dict [("responses", JVal.dict [("T", JVal.list [])])])

/-- Witness for C10: with the single tag `"T"` mapping to no hits, the
returned ResultSet is the empty dict, which indeed has no key `"T"`. -/
theorem national_empty_tag_absent_witness :
    dget ([] : List (String × JVal)) "T" = none :=
  (national_empty_tag_absent netNat "Sydney" false
      (.dict [("responses", JVal.dict [("T", JVal.list [])])])
      [("T", JVal.list [])] "T" (.dict []) rfl rfl
      (List.mem_singleton.mpr rfl) (by decide) rfl).1 rfl [] rfl

/-! ### Heap-level model of the TableFlattener (C9)

The value-level embeddings above compute returned values only.  To
settle the mutation claim, records are placed on an explicit heap:
`Store` is a list of record dicts addressed by index, a field value is
either an immutable primitive or a list of record references (the shape
`merge_keys` and `parse_inner_lists` traverse), and the two functions
are re-run against this heap so that in-place `dict_.update` effects
become visible. -/

/-- A heap field value: an immutable primitive, or a Python list of
references to mutable record dicts. -/
inductive HVal where
  | prim : JVal → HVal
  | refs : List Nat → HVal

/-- A mutable record dict on the heap. -/
abbrev HObj := List (String × HVal)

/-- The heap: record dicts addressed by index; allocation appends. -/
abbrev Store := List HObj

/-- Dereference a record address. -/
def storeGet (st : Store) (a : Nat) : HObj := st.getD a []

/-- Overwrite the record at an address (no-op when out of range). -/
def storeSet (st : Store) (a : Nat) (o : HObj) : Store := st.set a o

theorem length_storeSet (st : Store) (a : Nat) (o : HObj) :
    (storeSet st a o).length = st.length := by
  simp [storeSet]

theorem storeGet_storeSet_same :
    ∀ (st : Store) (a : Nat) (o : HObj), a < st.length →
      storeGet (storeSet st a o) a = o := by
  intro st
  induction st with
  | nil =>
    intro a o h
    cases h
  | cons x xs ih =>
    intro a o h
    cases a with
    | zero => rfl
    | succ n =>
      have : n < xs.length := by simpa using h
      simpa [storeGet, storeSet, List.getD] using ih n o this

theorem storeGet_storeSet_ne :
    ∀ (st : Store) (a a' : Nat) (o : HObj), a' ≠ a →
      storeGet (storeSet st a o) a' = storeGet st a' := by
  intro st
  induction st with
  | nil => intro a a' o h; rfl
  | cons x xs ih =>
    intro a a' o h
    cases a with
    | zero =>
      cases a' with
      | zero => exact absurd rfl h
      | succ m => rfl
    | succ n =>
      cases a' with
      | zero => rfl
      | succ m =>
        have hm : m ≠ n := fun he => h (by rw [he])
        simpa [storeGet, storeSet, List.getD] using ih n m o hm

/-- `merge_keysH`: the heap-level `merge_keys`.  For each outer key, in
order, each referenced record is updated **in place** with
`key_name -> key`; the returned list is the flat list of the same
record references, outer-then-inner. -/
def merge_keysH : Store → List (String × List Nat) → String → Store × List Nat
  | st, [], _ => (st, [])
  | st, (k, as) :: rest, kn =>
    let st1 := as.foldl
      (fun s a => storeSet s a (dset (storeGet s a) kn (HVal.prim (JVal.str k)))) st
    match merge_keysH st1 rest kn with
    | (st2, out) => (st2, as ++ out)

/-- The heap-level inner `r.update({col: response[col]})` phase of
`parse_inner_lists`: reads the record at address `a`, writes nothing. -/
def updateColsFromRecH (st : Store) (a : Nat) (cols : List String) (r : HObj) :
    Except PyError HObj :=
  match cols with
  | [] => .ok r
  | c :: cs =>
    match dget (storeGet st a) c with
    | none => .error (.keyError c)
    | some v => updateColsFromRecH st a cs (dset r c v)

/-- The heap-level `r.update({col: json_data[col]})` phase. -/
def updateColsFromObjH (src : HObj) (cols : List String) (r : HObj) :
    Except PyError HObj :=
  match cols with
  | [] => .ok r
  | c :: cs =>
    match dget src c with
    | none => .error (.keyError c)
    | some v => updateColsFromObjH src cs (dset r c v)

/-- The heap-level per-entry loop of `parse_inner_lists`: each iteration
reads the referenced record, builds a fresh record (shallow-copying
field values), and allocates it at the end of the store. -/
def parse_inner_loopH (json_data : HObj) (cf tk : List String) :
    Store → List Nat → Store × Except PyError (List Nat)
  | st, [] => (st, .ok [])
  | st, a :: rest =>
    match updateColsFromRecH st a cf [] with
    | .error e => (st, .error e)
    | .ok r1 =>
      match updateColsFromObjH json_data tk r1 with
      | .error e => (st, .error e)
      | .ok r =>
        match parse_inner_loopH json_data cf tk (st ++ [r]) rest with
        | (st2, .error e) => (st2, .error e)
        | (st2, .ok outs) => (st2, .ok (st.length :: outs))

/-- `parse_inner_listsH`: the heap-level `parse_inner_lists`.  The
nested container is a list of record references; the result is a list
of references to freshly allocated flat records. -/
def parse_inner_listsH (st : Store) (json_data : HObj)
    (cols_from_nested : List String) (target : String) (keep : KeepCols) :
    Store × Except PyError (List Nat) :=
  let to_keep := match keep with
    | .all => (dkeys json_data).filter (fun col => col ≠ target)
    | .cols cs => cs
  match dget json_data target with
  | none => (st, .error (.keyError target))
  | some (.refs as) => parse_inner_loopH json_data cols_from_nested to_keep st as
  | some (.prim _) => (st, .error .typeError)

theorem parse_inner_loopH_extends (json_data : HObj) (cf tk : List String) :
    ∀ (as : List Nat) (st : Store),
      ∃ fresh, (parse_inner_loopH json_data cf tk st as).1 = st ++ fresh := by
  intro as
  induction as with
  | nil => intro st; exact ⟨[], by simp [parse_inner_loopH]⟩
  | cons a rest ih =>
    intro st
    simp only [parse_inner_loopH]
    split
    · exact ⟨[], by simp⟩
    · split
      · exact ⟨[], by simp⟩
      · rename_i r1 hr1 r hr
        obtain ⟨f', hf'⟩ := ih (st ++ [r])
        rcases hrec : parse_inner_loopH json_data cf tk (st ++ [r]) rest
          with ⟨st2, res2⟩
        have hst2 : st2 = st ++ ([r] ++ f') := by
          rw [hrec] at hf'
          simpa using hf'
        cases res2 with
        | error e => exact ⟨[r] ++ f', by simp [hrec, hst2]⟩
        | ok outs => exact ⟨[r] ++ f', by simp [hrec, hst2]⟩

theorem parse_inner_listsH_extends (st : Store) (json_data : HObj)
    (cols_from_nested : List String) (target : String) (keep : KeepCols) :
    ∃ fresh, (parse_inner_listsH st json_data cols_from_nested target keep).1
      = st ++ fresh := by
  cases hd : dget json_data target with
  | none => exact ⟨[], by simp [parse_inner_listsH, hd]⟩
  | some v =>
    cases v with
    | prim w => exact ⟨[], by simp [parse_inner_listsH, hd]⟩
    | refs as =>
      have hext := parse_inner_loopH_extends json_data cols_from_nested
        (match keep with
         | .all => (dkeys json_data).filter (fun col => col ≠ target)
         | .cols cs => cs) as st
      simpa [parse_inner_listsH, hd] using hext

theorem mem_flatMap_cons_left {q : String × List Nat}
    {rest : List (String × List Nat)} {a : Nat} (h : a ∈ q.2) :
    a ∈ (q :: rest).flatMap Prod.snd := by
  rw [List.flatMap_cons]
  exact List.mem_append.mpr (Or.inl h)

theorem mem_flatMap_cons_right {q : String × List Nat}
    {rest : List (String × List Nat)} {a : Nat}
    (h : a ∈ rest.flatMap Prod.snd) :
    a ∈ (q :: rest).flatMap Prod.snd := by
  rw [List.flatMap_cons]
  exact List.mem_append.mpr (Or.inr h)

theorem foldl_tag_length (kn k : String) :
    ∀ (as : List Nat) (st : Store),
      (as.foldl (fun s a => storeSet s a
        (dset (storeGet s a) kn (HVal.prim (JVal.str k)))) st).length
      = st.length := by
  intro as
  induction as with
  | nil => intro st; rfl
  | cons a rest ih =>
    intro st
    simp only [List.foldl_cons]
    rw [ih, length_storeSet]

theorem foldl_tag_get_notmem (kn k : String) :
    ∀ (as : List Nat) (st : Store) (a : Nat), a ∉ as →
      storeGet (as.foldl (fun s a => storeSet s a
        (dset (storeGet s a) kn (HVal.prim (JVal.str k)))) st) a
      = storeGet st a := by
  intro as
  induction as with
  | nil => intro st a _; rfl
  | cons a0 rest ih =>
    intro st a hmem
    have h1 : a ∉ rest := fun hh => hmem (List.mem_cons_of_mem a0 hh)
    have h2 : a ≠ a0 := fun hh => hmem (hh ▸ List.mem_cons_self a0 rest)
    simp only [List.foldl_cons]
    rw [ih _ a h1, storeGet_storeSet_ne _ _ _ _ h2]

theorem foldl_tag_get_mem (kn k : String) :
    ∀ (as : List Nat) (st : Store) (a : Nat), as.Nodup → a ∈ as →
      a < st.length →
      storeGet (as.foldl (fun s a => storeSet s a
        (dset (storeGet s a) kn (HVal.prim (JVal.str k)))) st) a
      = dset (storeGet st a) kn (HVal.prim (JVal.str k)) := by
  intro as
  induction as with
  | nil => intro st a _ hmem _; cases hmem
  | cons a0 rest ih =>
    intro st a hnd hmem hlt
    have hnd' : a0 ∉ rest ∧ rest.Nodup := by simpa using hnd
    simp only [List.foldl_cons]
    rcases List.mem_cons.mp hmem with hh | hh
    · subst hh
      rw [foldl_tag_get_notmem kn k rest _ a hnd'.1,
        storeGet_storeSet_same _ _ _ hlt]
    · have hne : a ≠ a0 := fun he => hnd'.1 (he ▸ hh)
      have hlt' : a < (storeSet st a0
          (dset (storeGet st a0) kn (HVal.prim (JVal.str k)))).length := by
        rw [length_storeSet]; exact hlt
      rw [ih _ a hnd'.2 hh hlt', storeGet_storeSet_ne _ _ _ _ hne]

theorem merge_keysH_get_notmem :
    ∀ (d : List (String × List Nat)) (st : Store) (kn : String) (a : Nat),
      a ∉ d.flatMap Prod.snd →
      storeGet (merge_keysH st d kn).1 a = storeGet st a := by
  intro d
  induction d with
  | nil => intro st kn a _; rfl
  | cons q rest ih =>
    intro st kn a hmem
    obtain ⟨k, as⟩ := q
    have h1 : a ∉ as := fun hh => hmem (mem_flatMap_cons_left hh)
    have h2 : a ∉ rest.flatMap Prod.snd :=
      fun hh => hmem (mem_flatMap_cons_right hh)
    rcases hrec : merge_keysH (as.foldl (fun s a => storeSet s a
        (dset (storeGet s a) kn (HVal.prim (JVal.str k)))) st) rest kn
      with ⟨st2, out⟩
    simp only [merge_keysH, hrec]
    have := ih (as.foldl (fun s a => storeSet s a
        (dset (storeGet s a) kn (HVal.prim (JVal.str k)))) st) kn a h2
    rw [hrec] at this
    simpa [foldl_tag_get_notmem kn k as st a h1] using this

theorem merge_keysH_length :
    ∀ (d : List (String × List Nat)) (st : Store) (kn : String),
      (merge_keysH st d kn).1.length = st.length := by
  intro d
  induction d with
  | nil => intro st kn; rfl
  | cons q rest ih =>
    intro st kn
    obtain ⟨k, as⟩ := q
    rcases hrec : merge_keysH (as.foldl (fun s a => storeSet s a
        (dset (storeGet s a) kn (HVal.prim (JVal.str k)))) st) rest kn
      with ⟨st2, out⟩
    simp only [merge_keysH, hrec]
    have := ih (as.foldl (fun s a => storeSet s a
        (dset (storeGet s a) kn (HVal.prim (JVal.str k)))) st) kn
    rw [hrec] at this
    simpa [foldl_tag_length kn k as st] using this

theorem merge_keysH_get_mem :
    ∀ (d : List (String × List Nat)) (st : Store) (kn : String),
      (d.flatMap Prod.snd).Nodup →
      (∀ a ∈ d.flatMap Prod.snd, a < st.length) →
      ∀ p ∈ d, ∀ a ∈ p.2,
        storeGet (merge_keysH st d kn).1 a
          = dset (storeGet st a) kn (HVal.prim (JVal.str p.1)) := by
  intro d
  induction d with
  | nil => intro st kn _ _ p hp; cases hp
  | cons q rest ih =>
    intro st kn hnd hlt p hp a ha
    obtain ⟨k, as⟩ := q
    have hsplit : as.Nodup ∧ (rest.flatMap Prod.snd).Nodup ∧
        as.Disjoint (rest.flatMap Prod.snd) := by
      simpa [List.flatMap_cons, List.nodup_append] using hnd
    rcases hrec : merge_keysH (as.foldl (fun s a => storeSet s a
        (dset (storeGet s a) kn (HVal.prim (JVal.str k)))) st) rest kn
      with ⟨st2, out⟩
    simp only [merge_keysH, hrec]
    rcases List.mem_cons.mp hp with hh | hh
    · subst hh
      have hmemas : a ∈ as := ha
      have hnotrest : a ∉ rest.flatMap Prod.snd := hsplit.2.2 hmemas
      have hlta : a < st.length := hlt a (mem_flatMap_cons_left hmemas)
      have hstep := foldl_tag_get_mem kn k as st a hsplit.1 hmemas hlta
      have huntouched := merge_keysH_get_notmem rest
        (as.foldl (fun s a => storeSet s a
          (dset (storeGet s a) kn (HVal.prim (JVal.str k)))) st) kn a hnotrest
      rw [hrec] at huntouched
      simp only [huntouched]
      exact hstep
    · have hmemrest : a ∈ rest.flatMap Prod.snd := by
        simp only [List.mem_flatMap]
        exact ⟨p, hh, ha⟩
      have hnotas : a ∉ as := fun hh2 => hsplit.2.2 hh2 hmemrest
      have hlt' : ∀ b ∈ rest.flatMap Prod.snd,
          b < (as.foldl (fun s a => storeSet s a
            (dset (storeGet s a) kn (HVal.prim (JVal.str k)))) st).length := by
        intro b hb
        rw [foldl_tag_length kn k as st]
        exact hlt b (mem_flatMap_cons_right hb)
      have := ih (as.foldl (fun s a => storeSet s a
          (dset (storeGet s a) kn (HVal.prim (JVal.str k)))) st) kn
        hsplit.2.1 hlt' p hh a ha
      rw [hrec] at this
      simpa [foldl_tag_get_notmem kn k as st a hnotas] using this

/-- C9 counterexample: `merge_keys` mutates its input's inner records.
On a heap holding the single record `{"x": 1}` referenced by key
`"A"`, the call `merge_keys({"A": [{"x": 1}]}, "tag")` leaves the
stored record as `{"x": 1, "tag": "A"}` — not the `{"x": 1}` the claim
says is unchanged. -/
theorem merge_keys_mutation_counterexample :
    (merge_keysH [[("x", HVal.prim (JVal.int 1))]] [("A", [0])] "tag").1
      = [[("x", HVal.prim (JVal.int 1)),
          ("tag", HVal.prim (JVal.str "A"))]] ∧
    ([[("x", HVal.prim (JVal.int 1)), ("tag", HVal.prim (JVal.str "A"))]]
        : Store)
      ≠ [[("x", HVal.prim (JVal.int 1))]] := by
  refine ⟨rfl, ?_⟩
  intro h
  injection h with h1 h2
  injection h1 with ha hb
  cases hb

/-- C9 (amended): `parse_inner_lists` never mutates its input — it only
reads the original records and appends freshly allocated ones, so every
pre-existing address is unchanged; `merge_keys`, however, mutates each
inner record it visits in place, setting `key_name` to the record's
outer key, while every address it does not visit is left unchanged. -/
theorem flattener_mutation_amended :
    (∀ (st : Store) (json_data : HObj) (cols_from_nested : List String)
       (target : String) (keep : KeepCols),
       ∃ fresh,
         (parse_inner_listsH st json_data cols_from_nested target keep).1
           = st ++ fresh) ∧
    (∀ (st : Store) (d : List (String × List Nat)) (kn : String) (a : Nat),
       a ∉ d.flatMap Prod.snd →
       storeGet (merge_keysH st d kn).1 a = storeGet st a) ∧
    (∀ (st : Store) (d : List (String × List Nat)) (kn : String),
       (d.flatMap Prod.snd).Nodup →
       (∀ a ∈ d.flatMap Prod.snd, a < st.length) →
       ∀ p ∈ d, ∀ a ∈ p.2,
         storeGet (merge_keysH st d kn).1 a
           = dset (storeGet st a) kn (HVal.prim (JVal.str p.1))) :=
  ⟨fun st jd cf tgt keep => parse_inner_listsH_extends st jd cf tgt keep,
   fun st d kn a h => merge_keysH_get_notmem d st kn a h,
   fun st d kn hnd hlt p hp a ha => merge_keysH_get_mem d st kn hnd hlt p hp a ha⟩

/-- Witness for C9's amended theorem: on a two-record heap, tagging the
record at address 0 rewrites it in place while address 1 is untouched. -/
theorem flattener_mutation_amended_witness :
    storeGet (merge_keysH [[("x", HVal.prim (JVal.int 1))],
        [("y", HVal.prim (JVal.int 2))]] [("A", [0])] "tag").1 0
      = dset [("x", HVal.prim (JVal.int 1))] "tag"
          (HVal.prim (JVal.str "A")) ∧
    storeGet (merge_keysH [[("x", HVal.prim (JVal.int 1))],
        [("y", HVal.prim (JVal.int 2))]] [("A", [0])] "tag").1 1
      = storeGet [[("x", HVal.prim (JVal.int 1))],
        [("y", HVal.prim (JVal.int 2))]] 1 := by
  constructor
  · exact flattener_mutation_amended.2.2
      [[("x", HVal.prim (JVal.int 1))], [("y", HVal.prim (JVal.int 2))]]
      [("A", [0])] "tag" (by decide) (by decide) ("A", [0])
      (List.mem_singleton.mpr rfl) 0 (by decide)
  · exact flattener_mutation_amended.2.1
      [[("x", HVal.prim (JVal.int 1))], [("y", HVal.prim (JVal.int 2))]]
      [("A", [0])] "tag" 1 (by decide)
